import Mathlib

/- Verification of the duplicate-detection library of the topic-shuffler
   application (src/lib/duplicateDetection.ts) against its specification.

   The TypeScript code is embedded shallowly: JavaScript numbers are
   idealised as real numbers together with the IEEE special values NaN and
   signed infinity, which the code can genuinely produce (division by zero,
   reads past the end of an array).  Vectors are lists of reals; an
   out-of-range read `b[i]` yields `undefined`, and `val * undefined` is
   NaN, which then absorbs the whole reduction. -/

namespace DupDetect

/-- A JavaScript number as produced by the arithmetic in
`duplicateDetection.ts`: a finite real, NaN, or a signed infinity
(`inf true` is positive infinity, `inf false` negative infinity). -/
inductive JsNum : Type where
  | fin : ℝ → JsNum
  | nan : JsNum
  | inf : Bool → JsNum

/-- The dot-product loop of `cosineSimilarity`:
`a.reduce((sum, val, i) => sum + val * b[i], 0)`.
When `b` is shorter than `a`, the read `b[i]` yields `undefined`,
`val * undefined` is NaN, and the whole sum collapses to NaN,
modelled as `none`. -/
def jsDot : List ℝ → List ℝ → Option ℝ
  | [], _ => some 0
  | _ :: _, [] => none
  | x :: xs, y :: ys => (jsDot xs ys).map (fun s => x * y + s)

/-- The reduction `arr.reduce((sum, val) => sum + val * val, 0)`: the sum of
squares used for both magnitudes in `cosineSimilarity`. -/
def sumSq (l : List ℝ) : ℝ := l.foldl (fun s x => s + x * x) 0

/-- The quantity `Math.sqrt(arr.reduce((sum, val) => sum + val * val, 0))`. -/
noncomputable def magnitude (l : List ℝ) : ℝ := Real.sqrt (sumSq l)

/-- JavaScript division `x / y` of finite numbers: `0 / 0` is NaN, a nonzero
numerator over zero gives a signed infinity, otherwise ordinary division. -/
noncomputable def jsDiv (x y : ℝ) : JsNum :=
  if y = 0 then (if x = 0 then .nan else .inf (decide (0 < x))) else .fin (x / y)

/-- The function `cosineSimilarity(a, b)` from duplicateDetection.ts:
`dotProduct / (magnitudeA * magnitudeB)` with no dimension check. -/
noncomputable def cosineSimilarity (a b : List ℝ) : JsNum :=
  match jsDot a b with
  | none => .nan
  | some d => jsDiv d (magnitude a * magnitude b)

lemma foldl_sumSq (l : List ℝ) (c : ℝ) :
    l.foldl (fun s x => s + x * x) c = c + sumSq l := by
  induction l generalizing c with
  | nil => simp [sumSq]
  | cons x xs ih =>
    simp only [sumSq, List.foldl_cons] at *
    rw [ih (c + x * x), ih (0 + x * x)]
    ring

lemma sumSq_cons (x : ℝ) (xs : List ℝ) : sumSq (x :: xs) = x * x + sumSq xs := by
  have h : sumSq (x :: xs) = xs.foldl (fun s x => s + x * x) (0 + x * x) := rfl
  rw [h, foldl_sumSq]
  ring

lemma sumSq_nonneg (l : List ℝ) : 0 ≤ sumSq l := by
  induction l with
  | nil => simp [sumSq]
  | cons x xs ih =>
    rw [sumSq_cons]
    nlinarith [mul_self_nonneg x]

lemma sumSq_eq_zero_iff (l : List ℝ) : sumSq l = 0 ↔ ∀ x ∈ l, x = 0 := by
  induction l with
  | nil => simp [sumSq]
  | cons x xs ih =>
    rw [sumSq_cons]
    constructor
    · intro h
      have hx : 0 ≤ x * x := mul_self_nonneg x
      have hxs : 0 ≤ sumSq xs := sumSq_nonneg xs
      have h1 : x * x = 0 := by linarith
      have h2 : sumSq xs = 0 := by linarith
      intro y hy
      rcases List.mem_cons.mp hy with rfl | hy'
      · exact mul_self_eq_zero.mp h1
      · exact (ih.mp h2) y hy'
    · intro h
      have hx : x = 0 := h x (List.mem_cons_self x xs)
      have hxs : sumSq xs = 0 := ih.mpr fun y hy => h y (List.mem_cons_of_mem x hy)
      rw [hx, hxs]
      ring

lemma magnitude_eq_zero_iff (l : List ℝ) : magnitude l = 0 ↔ ∀ x ∈ l, x = 0 := by
  rw [magnitude, Real.sqrt_eq_zero (sumSq_nonneg l), sumSq_eq_zero_iff]

lemma sumSq_append (l₁ l₂ : List ℝ) : sumSq (l₁ ++ l₂) = sumSq l₁ + sumSq l₂ := by
  induction l₁ with
  | nil => simp [sumSq]
  | cons x xs ih => simp only [List.cons_append, sumSq_cons, ih]; ring

lemma sumSq_replicate_zero (k : ℕ) : sumSq (List.replicate k 0) = 0 := by
  induction k with
  | zero => simp [sumSq]
  | succ n ih => rw [List.replicate_succ, sumSq_cons, ih]; ring

/-- The dot product `jsDot` is NaN exactly when the second vector is shorter. -/
lemma jsDot_eq_none_iff (a b : List ℝ) : jsDot a b = none ↔ b.length < a.length := by
  induction a generalizing b with
  | nil => simp [jsDot]
  | cons x xs ih =>
    cases b with
    | nil => simp [jsDot]
    | cons y ys =>
      simp only [jsDot, List.length_cons, Nat.add_lt_add_iff_right]
      rw [← ih ys]
      cases jsDot xs ys <;> simp

lemma jsDot_isSome (a b : List ℝ) (h : a.length ≤ b.length) : ∃ d, jsDot a b = some d := by
  cases hd : jsDot a b with
  | none => exact absurd ((jsDot_eq_none_iff a b).mp hd) (by omega)
  | some d => exact ⟨d, rfl⟩

/-- Entries of the second vector past the length of the first are never read. -/
lemma jsDot_append_right (a b t : List ℝ) (h : a.length ≤ b.length) :
    jsDot a (b ++ t) = jsDot a b := by
  induction a generalizing b with
  | nil => simp [jsDot]
  | cons x xs ih =>
    cases b with
    | nil => simp at h
    | cons y ys =>
      simp only [List.cons_append, jsDot]
      congr 1
      exact ih ys (by simpa using h)

lemma jsDot_zero_left (a b : List ℝ) (ha : ∀ x ∈ a, x = 0) (d : ℝ)
    (h : jsDot a b = some d) : d = 0 := by
  induction a generalizing b d with
  | nil => simp [jsDot] at h; exact h.symm
  | cons x xs ih =>
    cases b with
    | nil => simp [jsDot] at h
    | cons y ys =>
      simp only [jsDot, Option.map_eq_some'] at h
      obtain ⟨s, hs, hd⟩ := h
      have hx : x = 0 := ha x (List.mem_cons_self x xs)
      have : s = 0 := ih ys (fun z hz => ha z (List.mem_cons_of_mem x hz)) s hs
      rw [← hd, hx, this]
      ring

lemma jsDot_zero_right (a b : List ℝ) (hb : ∀ y ∈ b, y = 0) (d : ℝ)
    (h : jsDot a b = some d) : d = 0 := by
  induction a generalizing b d with
  | nil => simp [jsDot] at h; exact h.symm
  | cons x xs ih =>
    cases b with
    | nil => simp [jsDot] at h
    | cons y ys =>
      simp only [jsDot, Option.map_eq_some'] at h
      obtain ⟨s, hs, hd⟩ := h
      have hy : y = 0 := hb y (List.mem_cons_self y ys)
      have : s = 0 := ih ys (fun z hz => hb z (List.mem_cons_of_mem y hz)) s hs
      rw [← hd, hy, this]
      ring

/-- The function `cosineSimilarity` never produces an infinity: a zero denominator forces
a zero numerator, and `0 / 0` is NaN. -/
lemma cosineSimilarity_ne_inf (a b : List ℝ) (s : Bool) :
    cosineSimilarity a b ≠ .inf s := by
  unfold cosineSimilarity
  cases hd : jsDot a b with
  | none => simp
  | some d =>
    simp only [jsDiv]
    by_cases hm : magnitude a * magnitude b = 0
    · have hd0 : d = 0 := by
        rcases mul_eq_zero.mp hm with h | h
        · exact jsDot_zero_left a b ((magnitude_eq_zero_iff a).mp h) d hd
        · exact jsDot_zero_right a b ((magnitude_eq_zero_iff b).mp h) d hd
      simp [hm, hd0]
    · simp [hm]

lemma cosineSimilarity_some (a b : List ℝ) (d : ℝ) (h : jsDot a b = some d) :
    cosineSimilarity a b = jsDiv d (magnitude a * magnitude b) := by
  unfold cosineSimilarity
  rw [h]

lemma sqrt_twentyfive : Real.sqrt 25 = 5 := by
  rw [show (25 : ℝ) = 5 * 5 by norm_num]
  exact Real.sqrt_mul_self (by norm_num)

lemma magnitude_three_four : magnitude [(3 : ℝ), 4] = 5 := by
  have h : sumSq [(3 : ℝ), 4] = 25 := by
    simp only [sumSq, List.foldl_cons, List.foldl_nil]
    norm_num
  rw [magnitude, h, sqrt_twentyfive]

lemma magnitude_three_four_zero : magnitude [(3 : ℝ), 4, 0] = 5 := by
  have h : sumSq [(3 : ℝ), 4, 0] = 25 := by
    simp only [sumSq, List.foldl_cons, List.foldl_nil]
    norm_num
  rw [magnitude, h, sqrt_twentyfive]

lemma jsDot_three_four_pair : jsDot [(3 : ℝ), 4] [3, 4] = some 25 := by
  simp only [jsDot, Option.map_some']
  norm_num

lemma jsDot_three_four_padded : jsDot [(3 : ℝ), 4] [3, 4, 0] = some 25 := by
  simp only [jsDot, Option.map_some']
  norm_num

lemma cos_three_four_pair : cosineSimilarity [(3 : ℝ), 4] [3, 4] = .fin 1 := by
  rw [cosineSimilarity_some _ _ _ jsDot_three_four_pair, magnitude_three_four]
  unfold jsDiv
  rw [if_neg (by norm_num)]
  norm_num

lemma cos_three_four_padded : cosineSimilarity [(3 : ℝ), 4] [3, 4, 0] = .fin 1 := by
  rw [cosineSimilarity_some _ _ _ jsDot_three_four_padded, magnitude_three_four,
    magnitude_three_four_zero]
  unfold jsDiv
  rw [if_neg (by norm_num)]
  norm_num

lemma cos_three_four_swapped : cosineSimilarity [(3 : ℝ), 4, 0] [3, 4] = .nan := by
  unfold cosineSimilarity
  rw [(jsDot_eq_none_iff _ _).mpr (by simp)]

/-- C1 (amended): `cosineSimilarity` performs no length validation and never
fails with a `DimensionMismatch`; it is a total function on every pair of
vectors.  When the second vector is shorter than the first the result is
NaN; when the second vector is at least as long, only its first
`a.length` entries enter the dot product, so padding it with further zero
components never changes the returned score. -/
theorem c1_no_dimension_check :
    (∀ a b : List ℝ, b.length < a.length → cosineSimilarity a b = .nan) ∧
    (∀ (a b : List ℝ) (k : ℕ), a.length ≤ b.length →
      cosineSimilarity a (b ++ List.replicate k 0) = cosineSimilarity a b) := by
  constructor
  · intro a b h
    unfold cosineSimilarity
    rw [(jsDot_eq_none_iff a b).mpr h]
  · intro a b k h
    unfold cosineSimilarity
    rw [jsDot_append_right a b _ h]
    have hm : magnitude (b ++ List.replicate k 0) = magnitude b := by
      rw [magnitude, magnitude, sumSq_append, sumSq_replicate_zero, add_zero]
    rw [hm]

/-- Witness for C1: the amended theorem applied at concrete vectors. -/
theorem c1_no_dimension_check_witness :
    cosineSimilarity [(1 : ℝ), 0] [1] = .nan ∧
    cosineSimilarity [(3 : ℝ), 4] ([3, 4] ++ List.replicate 1 0) =
      cosineSimilarity [(3 : ℝ), 4] [3, 4] :=
  ⟨c1_no_dimension_check.1 [(1 : ℝ), 0] [1] (by simp),
   c1_no_dimension_check.2 [(3 : ℝ), 4] [3, 4] 1 (by simp)⟩

/-- C1 counterexample: comparing vectors of lengths 2 and 3 does not fail
with `DimensionMismatch`; the call returns the numeric score 1, which is
exactly the score of the comparison against the truncated prefix. -/
theorem c1_counterexample :
    cosineSimilarity [(3 : ℝ), 4] [3, 4, 0] = .fin 1 ∧
    cosineSimilarity [(3 : ℝ), 4] [3, 4, 0] = cosineSimilarity [(3 : ℝ), 4] [3, 4] := by
  refine ⟨cos_three_four_padded, ?_⟩
  rw [cos_three_four_padded, cos_three_four_pair]

/-- C2 (amended): for equal-length vectors, if at least one magnitude is
exactly zero then `cosineSimilarity` returns NaN (the JavaScript division
`0 / 0`), not `0.0`. -/
theorem c2_zero_magnitude_nan :
    ∀ a b : List ℝ, a.length = b.length →
      (magnitude a = 0 ∨ magnitude b = 0) → cosineSimilarity a b = .nan := by
  intro a b hlen hmag
  obtain ⟨d, hd⟩ := jsDot_isSome a b (le_of_eq hlen)
  have hd0 : d = 0 := by
    rcases hmag with h | h
    · exact jsDot_zero_left a b ((magnitude_eq_zero_iff a).mp h) d hd
    · exact jsDot_zero_right a b ((magnitude_eq_zero_iff b).mp h) d hd
  have hm : magnitude a * magnitude b = 0 := by
    rcases hmag with h | h <;> rw [h] <;> ring
  rw [cosineSimilarity_some _ _ _ hd, hd0]
  unfold jsDiv
  rw [if_pos hm, if_pos rfl]

/-- Witness for C2: the zero vector of dimension 1. -/
theorem c2_zero_magnitude_nan_witness :
    ([(0 : ℝ)].length = [(0 : ℝ)].length ∧ magnitude [(0 : ℝ)] = 0) ∧
    cosineSimilarity [(0 : ℝ)] [0] = .nan :=
  ⟨⟨rfl, by simp [magnitude, sumSq]⟩,
   c2_zero_magnitude_nan _ _ rfl (Or.inl (by simp [magnitude, sumSq]))⟩

/-- C2 counterexample: on the zero vector the function returns NaN, not the
`0.0` promised by the specification. -/
theorem c2_counterexample :
    cosineSimilarity [(0 : ℝ)] [0] = .nan ∧ cosineSimilarity [(0 : ℝ)] [0] ≠ .fin 0 := by
  have h : cosineSimilarity [(0 : ℝ)] [0] = .nan := by
    have hd : jsDot [(0 : ℝ)] [0] = some 0 := by
      simp only [jsDot, Option.map_some']
      norm_num
    rw [cosineSimilarity_some _ _ _ hd]
    unfold jsDiv
    rw [if_pos (by simp [magnitude, sumSq]), if_pos rfl]
  refine ⟨h, ?_⟩
  rw [h]
  intro hc
  cases hc

/-! The quick text-based check `quickSimilarityCheck` (Jaccard similarity of
token sets).  Strings are modelled as Lean strings; the regular expression
classes of the source are modelled character by character: `\s` is the
JavaScript whitespace class, `\w` is `[A-Za-z0-9_]`. -/

/-- The JavaScript regular-expression class `\s` (whitespace), by code point. -/
def isJsSpace (c : Char) : Bool :=
  decide (c.toNat ∈ ([9, 10, 11, 12, 13, 32, 160, 5760, 8232, 8233, 8239,
    8287, 12288, 65279] : List ℕ)) || (decide (8192 ≤ c.toNat) && decide (c.toNat ≤ 8202))

/-- The JavaScript regular-expression class `\w`: ASCII letters, digits and
underscore. -/
def isWordChar (c : Char) : Bool :=
  (decide (97 ≤ c.toNat) && decide (c.toNat ≤ 122)) ||
  (decide (65 ≤ c.toNat) && decide (c.toNat ≤ 90)) ||
  (decide (48 ≤ c.toNat) && decide (c.toNat ≤ 57)) || decide (c.toNat = 95)

/-- Lowercasing `str.toLowerCase()`, modelled per character. -/
def jsToLowerCase (s : String) : String := String.mk (s.toList.map Char.toLower)

/-- Trimming `str.trim()`: remove leading and trailing JavaScript whitespace. -/
def jsTrim (s : String) : String :=
  String.mk (((s.toList.dropWhile fun c => isJsSpace c).reverse.dropWhile
    fun c => isJsSpace c).reverse)

/-- The `normalize` helper of `quickSimilarityCheck`:
`str.toLowerCase().replace(/[^\w\s]/g, '').trim()`. -/
def normalize (s : String) : String :=
  jsTrim (String.mk ((jsToLowerCase s).toList.filter fun c => isWordChar c || isJsSpace c))

/-- Splitting `str.split(/\s+/)` as a state machine over the characters: `some acc`
means a token `acc` (reversed) is being accumulated, `none` means the
machine is inside a separator run.  Splitting the empty string yields the
one-element list containing the empty string, as in JavaScript. -/
def splitWsAux : List Char → Option (List Char) → List String
  | [], some acc => [String.mk acc.reverse]
  | [], none => [String.mk []]
  | c :: cs, some acc =>
    if isJsSpace c then String.mk acc.reverse :: splitWsAux cs none
    else splitWsAux cs (some (c :: acc))
  | c :: cs, none =>
    if isJsSpace c then splitWsAux cs none else splitWsAux cs (some [c])

/-- The split `str.split(/\s+/)`. -/
def splitWs (s : String) : List String := splitWsAux s.toList (some [])

/-- The function `quickSimilarityCheck(text1, text2)` from duplicateDetection.ts:
normalise both texts, short-circuit exactly equal normal forms to 1.0,
otherwise Jaccard similarity of the whitespace-split token sets. -/
def quickSimilarityCheck (text1 text2 : String) : ℚ :=
  let normalized1 := normalize text1
  let normalized2 := normalize text2
  if normalized1 = normalized2 then 1
  else
    let words1 := (splitWs normalized1).toFinset
    let words2 := (splitWs normalized2).toFinset
    let intersection := words1.filter fun w => w ∈ words2
    let union := words1 ∪ words2
    (intersection.card : ℚ) / (union.card : ℚ)

lemma splitWsAux_ne_nil : ∀ (cs : List Char) (st : Option (List Char)),
    splitWsAux cs st ≠ [] := by
  intro cs
  induction cs with
  | nil => intro st; cases st <;> simp [splitWsAux]
  | cons c cs ih =>
    intro st
    cases st with
    | some acc =>
      by_cases h : isJsSpace c = true <;> simp [splitWsAux, h, ih]
    | none =>
      by_cases h : isJsSpace c = true <;> simp [splitWsAux, h, ih]

lemma splitWs_toFinset_nonempty (s : String) : (splitWs s).toFinset.Nonempty := by
  cases h : splitWs s with
  | nil => exact absurd h (splitWsAux_ne_nil _ _)
  | cons x xs => exact ⟨x, by simp [h]⟩

/-- C10: the token sets built by `quickSimilarityCheck` are never empty
(splitting even the empty string yields a singleton containing the empty
token), so the Jaccard denominator is strictly positive and the function
always returns a well-defined value in `[0, 1]`. -/
theorem c10_token_sets_nonempty (t1 t2 : String) :
    ((splitWs (normalize t1)).toFinset).Nonempty ∧
    0 < (((splitWs (normalize t1)).toFinset ∪ (splitWs (normalize t2)).toFinset).card) ∧
    0 ≤ quickSimilarityCheck t1 t2 ∧ quickSimilarityCheck t1 t2 ≤ 1 := by
  have h1 := splitWs_toFinset_nonempty (normalize t1)
  have hu : ((splitWs (normalize t1)).toFinset ∪
      (splitWs (normalize t2)).toFinset).Nonempty :=
    h1.mono Finset.subset_union_left
  have hcard : 0 < (((splitWs (normalize t1)).toFinset ∪
      (splitWs (normalize t2)).toFinset).card) := Finset.card_pos.mpr hu
  have hsub : ((splitWs (normalize t1)).toFinset.filter
      fun w => w ∈ (splitWs (normalize t2)).toFinset) ⊆
      ((splitWs (normalize t1)).toFinset ∪ (splitWs (normalize t2)).toFinset) :=
    (Finset.filter_subset _ _).trans Finset.subset_union_left
  refine ⟨h1, hcard, ?_, ?_⟩
  · by_cases heq : normalize t1 = normalize t2
    · simp only [quickSimilarityCheck, if_pos heq]
      norm_num
    · simp only [quickSimilarityCheck, if_neg heq]
      positivity
  · by_cases heq : normalize t1 = normalize t2
    · simp only [quickSimilarityCheck, if_pos heq]
      norm_num
    · simp only [quickSimilarityCheck, if_neg heq]
      rw [div_le_one (by exact_mod_cast hcard)]
      exact_mod_cast Finset.card_le_card hsub

/-- C8 (amended): when both inputs normalise to the empty string, the two
normal forms are equal, so `quickSimilarityCheck` takes the exact-match
fast path and returns 1.0 — it does not divide by zero, but it also does
not return the `0.0` that the specification promises. -/
theorem c8_both_empty_returns_one :
    ∀ t1 t2 : String, normalize t1 = String.mk [] → normalize t2 = String.mk [] →
      quickSimilarityCheck t1 t2 = 1 := by
  intro t1 t2 h1 h2
  simp only [quickSimilarityCheck, h1, h2]
  simp

/-- Witness for C8: two distinct punctuation-only inputs, both of which
normalise to the empty string. -/
theorem c8_both_empty_returns_one_witness :
    (normalize ("!!!") = String.mk [] ∧ normalize ("???") = String.mk []) ∧
    quickSimilarityCheck ("!!!") ("???") = 1 :=
  ⟨⟨by decide, by decide⟩, c8_both_empty_returns_one _ _ (by decide) (by decide)⟩

/-- C8 counterexample: two texts with no tokens at all are reported as a
perfect match (1.0), not as `0.0`. -/
theorem c8_counterexample :
    quickSimilarityCheck ("!!!") ("???") = 1 ∧ quickSimilarityCheck ("!!!") ("???") ≠ 0 := by
  constructor <;> decide

/-- C9 (amended): `cosineSimilarity` is symmetric on equal-length vectors
(but not on all pairs, because the dot-product loop runs over the first
argument), and `quickSimilarityCheck` is symmetric on all string pairs. -/
theorem c9_symmetry :
    (∀ a b : List ℝ, a.length = b.length →
      cosineSimilarity a b = cosineSimilarity b a) ∧
    (∀ x y : String, quickSimilarityCheck x y = quickSimilarityCheck y x) := by
  constructor
  · have hdot : ∀ a b : List ℝ, a.length = b.length → jsDot a b = jsDot b a := by
      intro a
      induction a with
      | nil =>
        intro b h
        cases b with
        | nil => rfl
        | cons y ys => simp at h
      | cons x xs ih =>
        intro b h
        cases b with
        | nil => simp at h
        | cons y ys =>
          simp only [jsDot]
          rw [ih ys (by simpa using h), mul_comm x y]
    intro a b h
    unfold cosineSimilarity
    rw [hdot a b h, mul_comm (magnitude a) (magnitude b)]
  · intro x y
    by_cases heq : normalize x = normalize y
    · simp only [quickSimilarityCheck, if_pos heq, if_pos heq.symm]
    · have heq' : ¬(normalize y = normalize x) := fun hc => heq hc.symm
      simp only [quickSimilarityCheck, if_neg heq, if_neg heq']
      rw [Finset.filter_mem_eq_inter, Finset.filter_mem_eq_inter,
        Finset.inter_comm, Finset.union_comm]

/-- Witness for C9: symmetry applied at a concrete equal-length vector pair
and a concrete string pair. -/
theorem c9_symmetry_witness :
    cosineSimilarity [(1 : ℝ), 2] [3, 4] = cosineSimilarity [(3 : ℝ), 4] [1, 2] ∧
    quickSimilarityCheck ("alpha beta") ("beta gamma") =
      quickSimilarityCheck ("beta gamma") ("alpha beta") :=
  ⟨c9_symmetry.1 [(1 : ℝ), 2] [3, 4] (by simp),
   c9_symmetry.2 ("alpha beta") ("beta gamma")⟩

/-- C9 counterexample: on vectors of different lengths `cosineSimilarity`
is not symmetric — one order gives the numeric score 1, the other NaN. -/
theorem c9_counterexample :
    cosineSimilarity [(3 : ℝ), 4] [3, 4, 0] ≠ cosineSimilarity [(3 : ℝ), 4, 0] [3, 4] := by
  rw [cos_three_four_padded, cos_three_four_swapped]
  intro hc
  cases hc

/-! The batch scanner `findDuplicates`.  The embedding provider
(`generateEmbedding` composed with `extractTextFromPaper`) is a parameter
`embed : α → Except ε (List ℝ)`: `.error` models a rejected promise of the
underlying model (after its internal WebGPU-to-CPU fallback).  The
instrumentation records the sequence of `onProgress` calls and the number
of embedding-provider invocations, both of which the specification
constrains. -/

/-- One element of the array returned by `findDuplicates`. -/
structure FDMatch (α : Type) where
  paper1 : α
  paper2 : α
  similarity : JsNum

/-- JavaScript subtraction on `JsNum` values, used only by the sort
comparator `(a, b) => b.similarity - a.similarity`. -/
def jsSub : JsNum → JsNum → JsNum
  | .fin a, .fin b => .fin (a - b)
  | .nan, _ => .nan
  | .fin _, .nan => .nan
  | .inf _, .nan => .nan
  | .inf s, .fin _ => .inf s
  | .fin _, .inf s => .inf (!s)
  | .inf s, .inf t => if s = t then .nan else .inf s

/-- Whether a comparator result keeps the first element first under
`Array.prototype.sort`: comparator values that are `<= 0`, with NaN treated
as `0` as the ECMAScript sort algorithm does. -/
noncomputable def jsLeZero : JsNum → Bool
  | .fin r => decide (r ≤ 0)
  | .nan => true
  | .inf s => !s

/-- The stable-sort order of `duplicates.sort((a, b) => b.similarity - a.similarity)`:
`x` may stay before `y` iff the comparator value `y.similarity - x.similarity`
is `<= 0` (or NaN). -/
noncomputable def fdSortLe (x y : FDMatch α) : Bool :=
  jsLeZero (jsSub y.similarity x.similarity)

/-- The JavaScript comparison `similarity >= threshold` (false on NaN). -/
noncomputable def jsGe (x : JsNum) (t : ℝ) : Bool :=
  match x with
  | .fin r => decide (t ≤ r)
  | .nan => false
  | .inf s => s

/-- The index pairs `(i, j)` visited by the nested comparison loops
`for (i = 0; i < n; i++) for (j = i + 1; j < n; j++)`, in visit order. -/
def pairIdx (n : ℕ) : List (ℕ × ℕ) :=
  (List.range n).flatMap fun i => (List.range' (i + 1) (n - (i + 1))).map fun j => (i, j)

/-- The comparison phase of `findDuplicates` over a list of index pairs:
collects the matches whose similarity passes `similarity >= threshold` (in
visit order) and the progress values
`(papers.length + (i * papers.length + j), papers.length * 2)`. -/
noncomputable def fdCompare (papers : List α) (es : List (List ℝ)) (threshold : ℝ) :
    List (ℕ × ℕ) → List (FDMatch α) × List (ℕ × ℕ)
  | [] => ([], [])
  | p :: rest =>
    let r := fdCompare papers es threshold rest
    let progressEntry := (papers.length + (p.1 * papers.length + p.2), 2 * papers.length)
    match papers[p.1]?, papers[p.2]?, es[p.1]?, es[p.2]? with
    | some a, some b, some ea, some eb =>
      let s := cosineSimilarity ea eb
      (if jsGe s threshold then ⟨a, b, s⟩ :: r.1 else r.1, progressEntry :: r.2)
    | _, _, _, _ => (r.1, progressEntry :: r.2)

/-- The embedding phase of `findDuplicates`: embed every paper in order,
reporting progress `(i + 1, papers.length * 2)` after each embedding and
counting provider invocations; a rejected promise aborts the loop. -/
def embedLoop (embed : α → Except ε (List ℝ)) (twoN : ℕ) :
    List α → ℕ → Except ε (List (List ℝ)) × List (ℕ × ℕ) × ℕ
  | [], _ => (.ok [], [], 0)
  | p :: ps, i =>
    match embed p with
    | .error e => (.error e, [], 1)
    | .ok emb =>
      let r := embedLoop embed twoN ps (i + 1)
      (r.1.map fun es => emb :: es, ((i + 1, twoN) :: r.2.1, r.2.2 + 1))

/-- The observable outcome of one `findDuplicates` call: its returned (or
thrown) value, the progress-callback trace, and the number of
embedding-provider invocations. -/
structure FDOut (α ε : Type) where
  result : Except ε (List (FDMatch α))
  progress : List (ℕ × ℕ)
  embedCalls : ℕ

/-- The function `findDuplicates(papers, threshold, onProgress)` from
duplicateDetection.ts: embed all papers, compare all pairs `i < j`, keep
pairs with `similarity >= threshold`, and return them sorted by similarity
descending with JavaScript's stable sort. -/
noncomputable def findDuplicates (embed : α → Except ε (List ℝ)) (papers : List α)
    (threshold : ℝ) : FDOut α ε :=
  let r := embedLoop embed (2 * papers.length) papers 0
  match r.1 with
  | .error e => ⟨.error e, r.2.1, r.2.2⟩
  | .ok es =>
    let c := fdCompare papers es threshold (pairIdx papers.length)
    ⟨.ok (c.1.mergeSort fdSortLe), r.2.1 ++ c.2, r.2.2⟩

/-- An embedding provider that always succeeds, for stating the functional
claims about a completed scan. -/
def pureEmbed (f : α → List ℝ) : α → Except Unit (List ℝ) := fun p => .ok (f p)

/-- The unsorted match list of a completed scan, in pair-visit order. -/
noncomputable def fdRaw (f : α → List ℝ) (papers : List α) (threshold : ℝ) :
    List (FDMatch α) :=
  (fdCompare papers (papers.map f) threshold (pairIdx papers.length)).1

/-- Similarity descending: both similarities are finite numbers and the
earlier one is at least the later one. -/
def simDesc (x y : FDMatch α) : Prop :=
  ∃ p q, x.similarity = JsNum.fin p ∧ y.similarity = JsNum.fin q ∧ q ≤ p

/-! The database-backed corpus check `checkProjectForDuplicates` and the
quick text check `quickDuplicateCheck`.  The supabase query result is a
parameter `fetch`; `.error` models a query error.  The whole body of
`checkProjectForDuplicates` runs inside `try { ... } catch { return []; }`,
so the function returns a plain list: every failure is swallowed.  The
second component counts embedding-provider invocations. -/

/-- A row of the `projects` table, restricted to the columns the
duplicate-detection code reads. -/
structure Project where
  title : String
  abstract : String

/-- The helper `extractTextFromProject`: `` `${title} ${abstract}`.trim() ``. -/
def extractTextFromProject (p : Project) : String :=
  jsTrim (p.title ++ (" ") ++ p.abstract)

/-- One element of the list returned by `checkProjectForDuplicates`. -/
structure CPMatch where
  project : Project
  similarity : JsNum

/-- The stable-sort order of the corpus-check result list. -/
noncomputable def cpSortLe (x y : CPMatch) : Bool :=
  jsLeZero (jsSub y.similarity x.similarity)

/-- The corpus loop of `checkProjectForDuplicates`: embed each existing
project and keep those passing the threshold; a rejected promise aborts
the loop.  Returns the matches (or the error) and the number of
embedding calls made. -/
noncomputable def cpLoop (embed : String → Except ε (List ℝ)) (newEmb : List ℝ)
    (threshold : ℝ) : List Project → Except ε (List CPMatch) × ℕ
  | [] => (.ok [], 0)
  | p :: ps =>
    match embed (extractTextFromProject p) with
    | .error e => (.error e, 1)
    | .ok emb =>
      let r := cpLoop embed newEmb threshold ps
      let s := cosineSimilarity newEmb emb
      (r.1.map fun ms => if jsGe s threshold then ⟨p, s⟩ :: ms else ms, r.2 + 1)

/-- The function `checkProjectForDuplicates(newProject, threshold)` from
duplicateDetection.ts.  A query error or empty corpus returns `[]` before
any embedding call; any exception afterwards is caught and turned into
`[]`.  The second component is the number of embedding-provider calls. -/
noncomputable def checkProjectForDuplicates (embed : String → Except ε (List ℝ))
    (fetch : Except δ (List Project)) (newProject : Project) (threshold : ℝ) :
    List CPMatch × ℕ :=
  match fetch with
  | .error _ => ([], 0)
  | .ok existingProjects =>
    if existingProjects.isEmpty then ([], 0)
    else
      match embed (extractTextFromProject newProject) with
      | .error _ => ([], 1)
      | .ok newEmb =>
        let r := cpLoop embed newEmb threshold existingProjects
        match r.1 with
        | .error _ => ([], r.2 + 1)
        | .ok duplicates => (duplicates.mergeSort cpSortLe, r.2 + 1)

/-- One element of the list returned by `quickDuplicateCheck`. -/
structure QMatch where
  project : Project
  similarity : ℚ

/-- The stable-sort order of the quick-check result list. -/
def qSortLe (x y : QMatch) : Bool := decide (y.similarity ≤ x.similarity)

/-- The function `quickDuplicateCheck(title, abstract)` from duplicateDetection.ts: a
purely lexical scan of the corpus, keeping projects whose best of title
similarity and combined-text similarity is at least 0.6, sorted
descending.  It never touches the embedding provider. -/
def quickDuplicateCheck (fetch : Except δ (List Project)) (title abstract : String) :
    List QMatch :=
  match fetch with
  | .error _ => []
  | .ok projects =>
    let inputText := jsToLowerCase (title ++ (" ") ++ abstract)
    let raw := projects.filterMap fun project =>
      let projectText := jsToLowerCase (project.title ++ (" ") ++ project.abstract)
      let titleSimilarity := quickSimilarityCheck title project.title
      let textSimilarity := quickSimilarityCheck inputText projectText
      let maxSimilarity := max titleSimilarity textSimilarity
      if maxSimilarity ≥ 0.6 then some ⟨project, maxSimilarity⟩ else none
    raw.mergeSort qSortLe

/-- The two-tier interactive checker `checkDuplicates` from
ProjectSubmissionForm.tsx: after a guard on the title, run the quick
lexical check; if any quick result exceeds similarity 0.7, run the
embedding-based corpus check at threshold 0.75 and let its results replace
the quick ones.  The first component is the final `duplicates` state
(`inl` = lexical results, `inr` = semantic results); the second counts
embedding-provider invocations. -/
noncomputable def checkDuplicates (embed : String → Except ε (List ℝ))
    (fetch : Except δ (List Project)) (title abstract : String) :
    (List QMatch ⊕ List CPMatch) × ℕ :=
  if jsTrim title = String.mk [] ∨ title.length < 5 then (.inl [], 0)
  else
    let quickResults := quickDuplicateCheck fetch title abstract
    if quickResults.any fun d => decide (d.similarity > 0.7) then
      let ai := checkProjectForDuplicates embed fetch ⟨title, abstract⟩ 0.75
      (.inr ai.1, ai.2)
    else (.inl quickResults, 0)

lemma embedLoop_pure (f : α → List ℝ) (t : ℕ) : ∀ (l : List α) (i : ℕ),
    embedLoop (pureEmbed f) t l i =
      (.ok (l.map f), (List.range' (i + 1) l.length).map fun k => (k, t), l.length) := by
  intro l
  induction l with
  | nil => intro i; simp [embedLoop]
  | cons p ps ih =>
    intro i
    simp only [embedLoop, pureEmbed, ih (i + 1), List.map_cons, List.length_cons,
      List.range'_succ]
    rfl

lemma fdCompare_progress (papers : List α) (es : List (List ℝ)) (th : ℝ) :
    ∀ ps : List (ℕ × ℕ), (fdCompare papers es th ps).2 =
      ps.map fun p => (papers.length + (p.1 * papers.length + p.2), 2 * papers.length) := by
  intro ps
  induction ps with
  | nil => simp [fdCompare]
  | cons p rest ih =>
    simp only [fdCompare, List.map_cons]
    split <;> simp [ih]

lemma mem_pairIdx (n : ℕ) (p : ℕ × ℕ) : p ∈ pairIdx n ↔ p.1 < p.2 ∧ p.2 < n := by
  obtain ⟨pi, pj⟩ := p
  unfold pairIdx
  rw [List.mem_flatMap]
  constructor
  · rintro ⟨i, hi, hmem⟩
    rw [List.mem_map] at hmem
    obtain ⟨j, hj, hEq⟩ := hmem
    rw [List.mem_range'] at hj
    rw [List.mem_range] at hi
    obtain ⟨t, ht, rfl⟩ := hj
    obtain ⟨rfl, rfl⟩ := Prod.mk.injEq .. |>.mp hEq
    constructor <;> omega
  · rintro ⟨h1, h2⟩
    refine ⟨pi, List.mem_range.mpr (by omega), List.mem_map.mpr ⟨pj, ?_, rfl⟩⟩
    rw [List.mem_range']
    exact ⟨pj - (pi + 1), by omega, by omega⟩

lemma mem_fdCompare (papers : List α) (f : α → List ℝ) (th : ℝ) (m : FDMatch α) :
    ∀ ps : List (ℕ × ℕ), m ∈ (fdCompare papers (papers.map f) th ps).1 ↔
      ∃ i j, (i, j) ∈ ps ∧ papers[i]? = some m.paper1 ∧ papers[j]? = some m.paper2 ∧
        m.similarity = cosineSimilarity (f m.paper1) (f m.paper2) ∧
        jsGe m.similarity th = true := by
  intro ps
  induction ps with
  | nil => simp [fdCompare]
  | cons p rest ih =>
    obtain ⟨pi, pj⟩ := p
    cases hA : papers[pi]? with
    | none =>
      have hA' : (papers.map f)[pi]? = none := by rw [List.getElem?_map, hA]; rfl
      simp only [fdCompare, hA, hA']
      rw [ih]
      constructor
      · rintro ⟨i, j, hij, h1, h2, h3, h4⟩
        exact ⟨i, j, List.mem_cons_of_mem _ hij, h1, h2, h3, h4⟩
      · rintro ⟨i, j, hij, h1, h2, h3, h4⟩
        rcases List.mem_cons.mp hij with hEq | hmem
        · obtain ⟨rfl, rfl⟩ := Prod.mk.injEq .. |>.mp hEq
          rw [hA] at h1
          cases h1
        · exact ⟨i, j, hmem, h1, h2, h3, h4⟩
    | some a =>
      cases hB : papers[pj]? with
      | none =>
        have hA' : (papers.map f)[pi]? = some (f a) := by rw [List.getElem?_map, hA]; rfl
        have hB' : (papers.map f)[pj]? = none := by rw [List.getElem?_map, hB]; rfl
        simp only [fdCompare, hA, hB, hA', hB']
        rw [ih]
        constructor
        · rintro ⟨i, j, hij, h1, h2, h3, h4⟩
          exact ⟨i, j, List.mem_cons_of_mem _ hij, h1, h2, h3, h4⟩
        · rintro ⟨i, j, hij, h1, h2, h3, h4⟩
          rcases List.mem_cons.mp hij with hEq | hmem
          · obtain ⟨rfl, rfl⟩ := Prod.mk.injEq .. |>.mp hEq
            rw [hB] at h2
            cases h2
          · exact ⟨i, j, hmem, h1, h2, h3, h4⟩
      | some b =>
        have hA' : (papers.map f)[pi]? = some (f a) := by rw [List.getElem?_map, hA]; rfl
        have hB' : (papers.map f)[pj]? = some (f b) := by rw [List.getElem?_map, hB]; rfl
        simp only [fdCompare, hA, hB, hA', hB']
        by_cases hge : jsGe (cosineSimilarity (f a) (f b)) th = true
        · simp only [if_pos hge, List.mem_cons]
          rw [ih]
          constructor
          · rintro (rfl | ⟨i, j, hij, h1, h2, h3, h4⟩)
            · exact ⟨pi, pj, Or.inl rfl, hA, hB, rfl, hge⟩
            · exact ⟨i, j, Or.inr hij, h1, h2, h3, h4⟩
          · rintro ⟨i, j, hij, h1, h2, h3, h4⟩
            rcases hij with hEq | hmem
            · obtain ⟨rfl, rfl⟩ := Prod.mk.injEq .. |>.mp hEq
              left
              rw [hA] at h1
              rw [hB] at h2
              obtain ⟨p1, p2, ps⟩ := m
              obtain rfl : a = p1 := Option.some.inj h1
              obtain rfl : b = p2 := Option.some.inj h2
              simp only at h3
              rw [h3]
            · right
              exact ⟨i, j, hmem, h1, h2, h3, h4⟩
        · simp only [if_neg hge]
          rw [ih]
          constructor
          · rintro ⟨i, j, hij, h1, h2, h3, h4⟩
            exact ⟨i, j, List.mem_cons_of_mem _ hij, h1, h2, h3, h4⟩
          · rintro ⟨i, j, hij, h1, h2, h3, h4⟩
            rcases List.mem_cons.mp hij with hEq | hmem
            · exfalso
              obtain ⟨rfl, rfl⟩ := Prod.mk.injEq .. |>.mp hEq
              rw [hA] at h1
              rw [hB] at h2
              obtain rfl : a = m.paper1 := Option.some.inj h1
              obtain rfl : b = m.paper2 := Option.some.inj h2
              rw [← h3] at hge
              exact hge h4
            · exact ⟨i, j, hmem, h1, h2, h3, h4⟩

lemma mem_fdRaw (f : α → List ℝ) (papers : List α) (th : ℝ) (m : FDMatch α) :
    m ∈ fdRaw f papers th ↔
      ∃ i j, i < j ∧ j < papers.length ∧
        papers[i]? = some m.paper1 ∧ papers[j]? = some m.paper2 ∧
        m.similarity = cosineSimilarity (f m.paper1) (f m.paper2) ∧
        jsGe m.similarity th = true := by
  rw [fdRaw, mem_fdCompare]
  constructor
  · rintro ⟨i, j, hij, h1, h2, h3, h4⟩
    obtain ⟨hlt, hn⟩ := (mem_pairIdx _ _).mp hij
    exact ⟨i, j, hlt, hn, h1, h2, h3, h4⟩
  · rintro ⟨i, j, hlt, hn, h1, h2, h3, h4⟩
    exact ⟨i, j, (mem_pairIdx _ _).mpr ⟨hlt, hn⟩, h1, h2, h3, h4⟩

lemma fdRaw_fin (f : α → List ℝ) (papers : List α) (th : ℝ) :
    ∀ m ∈ fdRaw f papers th, ∃ r, m.similarity = JsNum.fin r ∧ th ≤ r := by
  intro m hm
  obtain ⟨i, j, _, _, _, _, h3, h4⟩ := (mem_fdRaw f papers th m).mp hm
  cases hsim : m.similarity with
  | fin r =>
    rw [hsim] at h4
    exact ⟨r, rfl, by simpa [jsGe] using h4⟩
  | nan =>
    rw [hsim] at h4
    simp [jsGe] at h4
  | inf s =>
    rw [hsim] at h3
    exact absurd h3.symm (cosineSimilarity_ne_inf _ _ s)

/-- The sort key JavaScript effectively compares: the real value of a
finite similarity (irrelevant on the non-finite values, which never occur
in a stored match). -/
noncomputable def simKey : JsNum → ℝ
  | .fin r => r
  | _ => 0

/-- Ordering of matches by descending sort key. -/
noncomputable def fdKeyLe (x y : FDMatch α) : Bool :=
  decide (simKey y.similarity ≤ simKey x.similarity)

lemma fdKeyLe_trans : ∀ a b c : FDMatch α, fdKeyLe a b → fdKeyLe b c → fdKeyLe a c := by
  intro a b c h1 h2
  simp only [fdKeyLe, decide_eq_true_eq] at *
  exact le_trans h2 h1

lemma fdKeyLe_total : ∀ a b : FDMatch α, fdKeyLe a b || fdKeyLe b a := by
  intro a b
  simp only [fdKeyLe, Bool.or_eq_true, decide_eq_true_eq]
  exact le_total _ _

lemma fdSortLe_eq_fdKeyLe (x y : FDMatch α)
    (hx : ∃ r, x.similarity = JsNum.fin r) (hy : ∃ r, y.similarity = JsNum.fin r) :
    fdSortLe x y = fdKeyLe x y := by
  obtain ⟨p, hp⟩ := hx
  obtain ⟨q, hq⟩ := hy
  simp only [fdSortLe, fdKeyLe, hp, hq, jsSub, jsLeZero, simKey]
  exact decide_eq_decide.mpr (by constructor <;> intro h <;> linarith)

lemma mergeSort_fdRaw_eq (f : α → List ℝ) (papers : List α) (th : ℝ) :
    (fdRaw f papers th).mergeSort fdSortLe = (fdRaw f papers th).mergeSort fdKeyLe := by
  have h := List.map_mergeSort (f := id) (l := fdRaw f papers th)
    (r := fdSortLe) (s := fdKeyLe) ?_
  · simpa using h
  · intro a ha b hb
    have hfa := fdRaw_fin f papers th a ha
    have hfb := fdRaw_fin f papers th b hb
    exact fdSortLe_eq_fdKeyLe a b ⟨hfa.choose, hfa.choose_spec.1⟩ ⟨hfb.choose, hfb.choose_spec.1⟩

lemma findDuplicates_pure_result (f : α → List ℝ) (papers : List α) (th : ℝ) :
    (findDuplicates (pureEmbed f) papers th).result =
      .ok ((fdRaw f papers th).mergeSort fdSortLe) := by
  simp only [findDuplicates, embedLoop_pure, fdRaw]

/-- C3: a completed batch scan returns exactly the pairs `(i, j)` with
`i < j` whose similarity passes `similarity >= threshold` — no self-pairs
and nothing below threshold — sorted by similarity descending, and ties
(equal similarities) keep the pair-visit order of the unsorted
enumeration `fdRaw`. -/
theorem findDuplicates_matches (f : α → List ℝ) (papers : List α) (th : ℝ) :
    ∃ ms, (findDuplicates (pureEmbed f) papers th).result = .ok ms ∧
      ms.Perm (fdRaw f papers th) ∧
      (∀ m : FDMatch α, m ∈ ms ↔ ∃ i j, i < j ∧ j < papers.length ∧
        papers[i]? = some m.paper1 ∧ papers[j]? = some m.paper2 ∧
        m.similarity = cosineSimilarity (f m.paper1) (f m.paper2) ∧
        jsGe m.similarity th = true) ∧
      ms.Pairwise simDesc ∧
      (∀ x y : FDMatch α, x.similarity = y.similarity →
        List.Sublist [x, y] (fdRaw f papers th) → List.Sublist [x, y] ms) := by
  refine ⟨(fdRaw f papers th).mergeSort fdSortLe, findDuplicates_pure_result f papers th,
    List.mergeSort_perm _ _, ?_, ?_, ?_⟩
  · intro m
    rw [List.mem_mergeSort, mem_fdRaw]
  · rw [mergeSort_fdRaw_eq]
    have hs := List.sorted_mergeSort fdKeyLe_trans fdKeyLe_total
      (fdRaw f papers th)
    refine hs.imp_of_mem ?_
    intro a b ha hb hab
    have ha' := fdRaw_fin f papers th a (List.mem_mergeSort.mp ha)
    have hb' := fdRaw_fin f papers th b (List.mem_mergeSort.mp hb)
    obtain ⟨p, hp, _⟩ := ha'
    obtain ⟨q, hq, _⟩ := hb'
    refine ⟨p, q, hp, hq, ?_⟩
    have := of_decide_eq_true hab
    rw [fdKeyLe] at hab
    have hle := of_decide_eq_true hab
    rw [hp, hq] at hle
    simpa [simKey] using hle
  · intro x y hsim hsub
    rw [mergeSort_fdRaw_eq]
    refine List.pair_sublist_mergeSort fdKeyLe_trans fdKeyLe_total ?_ hsub
    rw [fdKeyLe, ← hsim]
    exact decide_eq_true le_rfl

lemma findDuplicates_pure_progress (f : α → List ℝ) (papers : List α) (th : ℝ) :
    (findDuplicates (pureEmbed f) papers th).progress =
      ((List.range' 1 papers.length).map fun k => (k, 2 * papers.length)) ++
      ((pairIdx papers.length).map fun p =>
        (papers.length + (p.1 * papers.length + p.2), 2 * papers.length)) := by
  simp only [findDuplicates, embedLoop_pure, fdCompare_progress]

lemma pairIdx_pairwise (n : ℕ) :
    (pairIdx n).Pairwise fun p q => p.1 * n + p.2 ≤ q.1 * n + q.2 := by
  unfold pairIdx
  rw [List.pairwise_flatMap]
  constructor
  · intro i _
    rw [List.pairwise_map]
    refine (List.pairwise_lt_range' ..).imp_of_mem ?_
    intro a b _ _ hab
    simp only
    omega
  · refine (List.pairwise_lt_range n).imp_of_mem ?_
    intro i1 i2 _ _ hlt x hx y hy
    rw [List.mem_map] at hx hy
    obtain ⟨j1, hj1, rfl⟩ := hx
    obtain ⟨j2, hj2, rfl⟩ := hy
    rw [List.mem_range'] at hj1 hj2
    obtain ⟨t1, ht1, rfl⟩ := hj1
    obtain ⟨t2, ht2, rfl⟩ := hj2
    simp only
    have hmul : (i1 + 1) * n ≤ i2 * n := Nat.mul_le_mul_right n (by omega)
    have hexp : (i1 + 1) * n = i1 * n + n := by ring
    have hj1n : i1 + 1 + 1 * t1 < n := by omega
    linarith

lemma pairIdx_concat (m : ℕ) :
    pairIdx (m + 2) =
      ((List.range m).flatMap fun i =>
        (List.range' (i + 1) ((m + 2) - (i + 1))).map fun j => (i, j)) ++ [(m, m + 1)] := by
  unfold pairIdx
  rw [List.range_succ, List.flatMap_append, List.range_succ, List.flatMap_append]
  have e1 : (m + 2) - (m + 1 + 1) = 0 := by omega
  have e2 : (m + 2) - (m + 1) = 1 := by omega
  simp [e1, e2, List.range'_one]

/-- C5 (amended): over a batch scan of N documents the progress-callback
trace is non-decreasing in its completed component and every call reports
`total = 2 * N`; but the final call does not report `(total, total)`: it
reports `(N ^ 2 - 1, 2 * N)` when `N ≥ 2` (which overshoots the total as
soon as `N ≥ 3`), `(1, 2)` when `N = 1`, and no call happens when
`N = 0`. -/
theorem findDuplicates_progress_spec (f : α → List ℝ) (papers : List α) (th : ℝ) :
    (∀ q ∈ (findDuplicates (pureEmbed f) papers th).progress, q.2 = 2 * papers.length) ∧
    ((findDuplicates (pureEmbed f) papers th).progress).Pairwise (fun q r => q.1 ≤ r.1) ∧
    ((findDuplicates (pureEmbed f) papers th).progress).getLast? =
      (if papers.length = 0 then none
       else if papers.length = 1 then some (1, 2)
       else some (papers.length ^ 2 - 1, 2 * papers.length)) := by
  rw [findDuplicates_pure_progress]
  generalize papers.length = n
  refine ⟨?_, ?_, ?_⟩
  · intro q hq
    rcases List.mem_append.mp hq with h | h <;> rw [List.mem_map] at h <;>
      obtain ⟨w, _, rfl⟩ := h <;> rfl
  · rw [List.pairwise_append]
    refine ⟨?_, ?_, ?_⟩
    · rw [List.pairwise_map]
      exact (List.pairwise_lt_range' ..).imp fun h => le_of_lt h
    · rw [List.pairwise_map]
      exact (pairIdx_pairwise n).imp fun h => Nat.add_le_add_left h n
    · intro q hq r hr
      rw [List.mem_map] at hq hr
      obtain ⟨k, hk, rfl⟩ := hq
      obtain ⟨p, _, rfl⟩ := hr
      rw [List.mem_range'] at hk
      obtain ⟨t, ht, rfl⟩ := hk
      exact le_trans (by omega) (Nat.le_add_right n _)
  · match n with
    | 0 => simp [pairIdx]
    | 1 =>
      rw [if_neg (by omega), if_pos rfl]
      decide
    | m + 2 =>
      rw [if_neg (by omega), if_neg (by omega)]
      rw [pairIdx_concat, List.map_append, ← List.append_assoc]
      simp only [List.map_cons, List.map_nil]
      rw [List.getLast?_concat]
      have harith : (m + 2) ^ 2 - 1 = (m + 2) + (m * (m + 2) + (m + 1)) := by
        rw [show (m + 2) ^ 2 = (m + 2) + (m * (m + 2) + (m + 1)) + 1 from by ring]
        exact Nat.add_sub_cancel ..
      rw [harith]

/-- C5 counterexample: for a batch of two documents the trace is
`[(1, 4), (2, 4), (3, 4)]`: the final call reports `(3, 4)`, not
`(total, total) = (4, 4)`. -/
theorem c5_counterexample :
    (findDuplicates (pureEmbed fun _ : ℕ => [(1 : ℝ)]) [0, 1] 0.85).progress =
      [(1, 4), (2, 4), (3, 4)] ∧
    (findDuplicates (pureEmbed fun _ : ℕ => [(1 : ℝ)]) [0, 1] 0.85).progress.getLast? ≠
      some (4, 4) := by
  have h : (findDuplicates (pureEmbed fun _ : ℕ => [(1 : ℝ)]) [0, 1] 0.85).progress =
      [(1, 4), (2, 4), (3, 4)] := by
    rw [findDuplicates_pure_progress]
    decide
  refine ⟨h, ?_⟩
  rw [h]
  simp

/-- C4 (amended): `findDuplicates` on an empty list and
`checkProjectForDuplicates` on an empty corpus both return an empty
sequence without any embedding-provider invocation; but `findDuplicates`
on a single-element list, while returning an empty sequence, invokes the
provider exactly once (it embeds the lone document before the empty
comparison phase). -/
theorem c4_small_inputs {α ε δ : Type} :
    ∀ (f : α → List ℝ) (th : ℝ) (p : α) (embed2 : String → Except ε (List ℝ))
      (np : Project) (th2 : ℝ),
      (findDuplicates (pureEmbed f) ([] : List α) th).result = .ok [] ∧
      (findDuplicates (pureEmbed f) ([] : List α) th).embedCalls = 0 ∧
      (findDuplicates (pureEmbed f) [p] th).result = .ok [] ∧
      (findDuplicates (pureEmbed f) [p] th).embedCalls = 1 ∧
      checkProjectForDuplicates embed2 ((.ok []) : Except δ (List Project)) np th2 =
        ([], 0) := by
  intro f th p embed2 np th2
  have h1 : pairIdx 1 = [] := by decide
  refine ⟨?_, ?_, ?_, ?_, ?_⟩
  · rw [findDuplicates_pure_result]
    simp [fdRaw, pairIdx, fdCompare]
  · simp [findDuplicates, embedLoop_pure]
  · rw [findDuplicates_pure_result]
    simp [fdRaw, h1, fdCompare]
  · simp [findDuplicates, embedLoop_pure]
  · simp [checkProjectForDuplicates]

/-- C4 counterexample: a single-document batch scan still invokes the
embedding provider (once), contradicting the claim that it makes no
embedding calls at all. -/
theorem c4_counterexample :
    (findDuplicates (pureEmbed fun _ : ℕ => [(1 : ℝ)]) [0] 0.85).embedCalls = 1 ∧
    (findDuplicates (pureEmbed fun _ : ℕ => [(1 : ℝ)]) [0] 0.85).embedCalls ≠ 0 := by
  have h : (findDuplicates (pureEmbed fun _ : ℕ => [(1 : ℝ)]) [0] 0.85).embedCalls = 1 := by
    simp [findDuplicates, embedLoop_pure]
  exact ⟨h, by rw [h]; omega⟩

/-- C7 (amended): in batch mode (`findDuplicates`) a hard embedding
failure propagates to the caller as an error, aborting the scan.  In
corpus-check mode (`checkProjectForDuplicates`) it does not propagate: the
surrounding try/catch swallows the failure and the call returns an empty
list (after the single failed provider invocation). -/
theorem c7_error_propagation {α ε δ : Type} :
    (∀ (embed : α → Except ε (List ℝ)) (e : ε) (p : α) (rest : List α) (th : ℝ),
      embed p = .error e → (findDuplicates embed (p :: rest) th).result = .error e) ∧
    (∀ (embed : String → Except ε (List ℝ)) (corpus : List Project) (np : Project)
      (th : ℝ) (e : ε), corpus ≠ [] → embed (extractTextFromProject np) = .error e →
      checkProjectForDuplicates embed ((.ok corpus) : Except δ (List Project)) np th =
        ([], 1)) := by
  constructor
  · intro embed e p rest th h
    simp [findDuplicates, embedLoop, h]
  · intro embed corpus np th e hne h
    simp only [checkProjectForDuplicates]
    rw [if_neg (by simpa [List.isEmpty_iff] using hne), h]

/-- Witness for C7: a provider that always fails, applied to a one-element
batch and a one-element corpus. -/
theorem c7_error_propagation_witness :
    (findDuplicates (fun _ : ℕ => (Except.error 7 : Except ℕ (List ℝ))) [0] 0.85).result =
      .error 7 ∧
    checkProjectForDuplicates (fun _ => (Except.error 7 : Except ℕ (List ℝ)))
      ((.ok [⟨("t1"), ("a1")⟩]) : Except Unit (List Project)) ⟨("t2"), ("a2")⟩ 0.75 =
      ([], 1) :=
  ⟨(@c7_error_propagation ℕ ℕ Unit).1 _ 7 0 [] 0.85 rfl,
   (@c7_error_propagation ℕ ℕ Unit).2 _ [⟨("t1"), ("a1")⟩] ⟨("t2"), ("a2")⟩ 0.75 7
     (by simp) rfl⟩

/-- C7 counterexample: in corpus-check mode a hard embedding failure on a
non-empty corpus is swallowed and converted into an empty result list —
it does not propagate as an error. -/
theorem c7_counterexample :
    checkProjectForDuplicates (fun _ => (Except.error () : Except Unit (List ℝ)))
      ((.ok [⟨("Prior Work"), ("Some abstract")⟩]) : Except Unit (List Project))
      ⟨("New Title"), ("New abstract")⟩ 0.75 = ([], 1) := by
  simp [checkProjectForDuplicates]

lemma quickDuplicateCheck_any_fetch_ok {δ : Type} (fetch : Except δ (List Project))
    (title abstract : String) (P : QMatch → Bool)
    (h : (quickDuplicateCheck fetch title abstract).any P = true) :
    ∃ l, fetch = .ok l ∧ l ≠ [] := by
  match fetch with
  | .error _ => simp [quickDuplicateCheck] at h
  | .ok l =>
    refine ⟨l, rfl, ?_⟩
    rintro rfl
    simp [quickDuplicateCheck] at h

lemma checkProjectForDuplicates_calls_pos {ε δ : Type}
    (embed : String → Except ε (List ℝ)) (corpus : List Project) (np : Project) (th : ℝ)
    (hne : corpus ≠ []) :
    1 ≤ (checkProjectForDuplicates embed ((.ok corpus) : Except δ (List Project)) np th).2 := by
  simp only [checkProjectForDuplicates]
  rw [if_neg (by simpa [List.isEmpty_iff] using hne)]
  cases embed (extractTextFromProject np) with
  | error e => simp
  | ok newEmb =>
    simp only
    cases (cpLoop embed newEmb th corpus).1 <;> simp

/-- C6: in the two-tier interactive check, the embedding-based corpus
check runs (at threshold 0.75) if and only if some quick lexical result
has similarity strictly greater than 0.7; when it runs, its result list
replaces the quick lexical results and the provider is invoked at least
once; when no quick result exceeds 0.7, the final state is exactly the
quick lexical results and the embedding provider is never invoked. -/
theorem checkDuplicates_two_tier {ε δ : Type} (embed : String → Except ε (List ℝ))
    (fetch : Except δ (List Project)) (title abstract : String)
    (hguard : ¬(jsTrim title = String.mk [] ∨ title.length < 5)) :
    ((quickDuplicateCheck fetch title abstract).any
        (fun d => decide (d.similarity > 0.7)) = true →
      checkDuplicates embed fetch title abstract =
        (.inr (checkProjectForDuplicates embed fetch ⟨title, abstract⟩ 0.75).1,
         (checkProjectForDuplicates embed fetch ⟨title, abstract⟩ 0.75).2) ∧
      1 ≤ (checkProjectForDuplicates embed fetch ⟨title, abstract⟩ 0.75).2) ∧
    ((quickDuplicateCheck fetch title abstract).any
        (fun d => decide (d.similarity > 0.7)) = false →
      checkDuplicates embed fetch title abstract =
        (.inl (quickDuplicateCheck fetch title abstract), 0)) := by
  constructor
  · intro hany
    constructor
    · simp only [checkDuplicates, if_neg hguard, hany, if_true]
    · obtain ⟨l, rfl, hne⟩ := quickDuplicateCheck_any_fetch_ok fetch title abstract _ hany
      exact checkProjectForDuplicates_calls_pos embed l ⟨title, abstract⟩ 0.75 hne
  · intro hany
    simp only [checkDuplicates, if_neg hguard, hany, Bool.false_eq_true, if_false]

/-- Witness for C6: a valid title over an empty corpus produces no quick
results, so the checker returns only the (empty) lexical result set and
never invokes the embedding provider. -/
theorem checkDuplicates_two_tier_witness :
    checkDuplicates (fun _ => (Except.error () : Except Unit (List ℝ)))
      ((.ok []) : Except Unit (List Project)) ("Machine Learning") ("") =
      (.inl [], 0) := by
  have h := (checkDuplicates_two_tier (fun _ => (Except.error () : Except Unit (List ℝ)))
    ((.ok []) : Except Unit (List Project)) ("Machine Learning") ("") (by decide)).2
    (by simp [quickDuplicateCheck])
  simpa [quickDuplicateCheck] using h

end DupDetect
